import Mathlib

/-!
# Verification of the oairouter routing and lifecycle plane

A shallow embedding of the oairouter Go package: the backend registry
(registry.go), the session-affinity lookup with its FNV-1a hash, the SSE
stream producer (backends/generic.go) and the two client-side relay loops
(the generic handleStream and the older handleChatCompletionsStream), and
the GenericBackend constructor.  Go maps are modelled as association
lists, machine integers as Nat with explicit reduction modulo 2^32 where
the code relies on uint32 wrap-around, fallible calls as Except, and the
network (model fetches, upstream bodies) as explicit input parameters.
-/

namespace Oairouter

/-! ## FNV-1a 32-bit hash (hash/fnv, as used by hashSessionToIndex) -/

/-- UTF-8 bytes of a string, as Nats.  Mirrors Go's []byte(sessionID):
Go strings are UTF-8 encoded, and String.utf8EncodeChar is the same
encoding. -/
def strBytes (s : String) : List Nat :=
  s.data.foldr (fun c acc => (String.utf8EncodeChar c).map UInt8.toNat ++ acc) []

/-- FNV-1a, 32-bit variant: offset basis 2166136261, prime 16777619,
xor-then-multiply per byte, with uint32 wrap-around made explicit as
reduction mod 2^32.  Mirrors fnv.New32a / Write / Sum32. -/
def fnv1a32 (bytes : List Nat) : Nat :=
  bytes.foldl (fun h b => ((h ^^^ b) * 16777619) % 4294967296) 2166136261

/-- hashSessionToIndex (registry.go): int(h.Sum32() % uint32(count)).
Every caller passes a positive slice length (far below 2^32), so the Go
uint32 conversion is the identity and the result is the plain Nat mod. -/
def hashSessionToIndex (sessionID : String) (count : Nat) : Nat :=
  fnv1a32 (strBytes sessionID) % count

/-! ## Go map operations, modelled as association lists

The registry's two maps (backends, models) are modelled as association
lists with unique keys.  lookupKey is m[k]; insertKey is m[k] = v;
eraseKey is delete(m, k).  Key iteration order of a Go map is
unspecified; no modelled operation depends on entry order. -/

def lookupKey {α : Type} : List (String × α) → String → Option α
  | [], _ => none
  | (k, v) :: rest, key => if k = key then some v else lookupKey rest key

def insertKey {α : Type} : List (String × α) → String → α → List (String × α)
  | [], key, v => [(key, v)]
  | (k, w) :: rest, key, v =>
    if k = key then (key, v) :: rest else (k, w) :: insertKey rest key v

def eraseKey {α : Type} : List (String × α) → String → List (String × α)
  | [], _ => []
  | (k, w) :: rest, key =>
    if k = key then eraseKey rest key else (k, w) :: eraseKey rest key

/-! ## Data model -/

/-- types.Model: only the ID field is relevant to routing. -/
structure Model where
  id : String
deriving DecidableEq

/-- A Backend as the registry observes it: ID() and the atomically read
IsHealthy() bit at the instant of the lookup.  (The wire methods are
modelled separately, on GenericBackend.) -/
structure Backend where
  id : String
  healthy : Bool
deriving DecidableEq

/-- BackendRegistry (registry.go): backends maps backendID to the handle,
models maps modelID to the backendIDs serving it. -/
structure BackendRegistry where
  backends : List (String × Backend)
  models : List (String × List String)
deriving DecidableEq

/-- NewBackendRegistry: both maps empty. -/
def NewBackendRegistry : BackendRegistry := { backends := [], models := [] }

/-! ## Registry mutations (registry.go)

Model-list fetches go over the network, so each mutating operation takes
the outcome of b.Models(ctx) as an explicit Except parameter. -/

/-- addModelMapping: append backendID to the model's sequence iff it is
not already present (Go: r.models[modelID] is nil for an absent key, and
assigning creates the entry). -/
def addModelMapping (r : BackendRegistry) (modelID backendID : String) : BackendRegistry :=
  let backends := (lookupKey r.models modelID).getD []
  if backendID ∈ backends then r
  else { r with models := insertKey r.models modelID (backends ++ [backendID]) }

/-- Register: upsert the handle under b.ID(), then fetch the model list;
on fetch failure the backend stays registered with no new mappings and
the error is swallowed (Register returns nil in both branches). -/
def Register (r : BackendRegistry) (b : Backend) (fetched : Except Unit (List Model)) : BackendRegistry :=
  let r' := { r with backends := insertKey r.backends b.id b }
  match fetched with
  | Except.error _ => r'
  | Except.ok models => models.foldl (fun acc m => addModelMapping acc m.id b.id) r'

/-- The model-map sweep shared by Unregister and RefreshModels: drop the
given backendID from every sequence, deleting entries that become
empty. -/
def pruneBackendID (models : List (String × List String)) (id : String) : List (String × List String) :=
  models.filterMap (fun entry =>
    let filtered := entry.2.filter (fun bid => bid != id)
    if filtered.isEmpty then none else some (entry.1, filtered))

/-- Unregister: delete the handle and sweep its id out of the model
index. -/
def Unregister (r : BackendRegistry) (id : String) : BackendRegistry :=
  { backends := eraseKey r.backends id, models := pruneBackendID r.models id }

/-- RefreshModels: error when the backend is unknown (state unchanged);
otherwise remove all existing mappings for the id, then re-fetch and
re-index.  A failed fetch leaves the mappings pruned (intentional per the
code comment); the returned error does not affect state, so only the
state is modelled. -/
def RefreshModels (r : BackendRegistry) (backendID : String) (fetched : Except Unit (List Model)) : BackendRegistry :=
  match lookupKey r.backends backendID with
  | none => r
  | some _ =>
    let r' := { r with models := pruneBackendID r.models backendID }
    match fetched with
    | Except.error _ => r'
    | Except.ok models => models.foldl (fun acc m => addModelMapping acc m.id backendID) r'

/-- One mutating registry operation, with its fetch outcome where the
operation performs a fetch. -/
inductive RegistryOp where
  | register (b : Backend) (fetched : Except Unit (List Model))
  | unregister (id : String)
  | refreshModels (id : String) (fetched : Except Unit (List Model))

def applyOp (r : BackendRegistry) : RegistryOp → BackendRegistry
  | RegistryOp.register b f => Register r b f
  | RegistryOp.unregister id => Unregister r id
  | RegistryOp.refreshModels id f => RefreshModels r id f

def applyOps (ops : List RegistryOp) : BackendRegistry :=
  ops.foldl applyOp NewBackendRegistry

/-- Registry soundness: every backend id appearing in any model's
sequence exists in the backend table. -/
def Sound (r : BackendRegistry) : Prop :=
  ∀ entry ∈ r.models, ∀ bid ∈ entry.2, (lookupKey r.backends bid).isSome = true

instance (r : BackendRegistry) : Decidable (Sound r) :=
  inferInstanceAs (Decidable (∀ entry ∈ r.models, ∀ bid ∈ entry.2, (lookupKey r.backends bid).isSome = true))

/-- A model id is mapped to a backend id somewhere in the model index. -/
def MappedTo (r : BackendRegistry) (modelID backendID : String) : Prop :=
  ∃ ids, (modelID, ids) ∈ r.models ∧ backendID ∈ ids

/-! ## Registry lookups (registry.go) -/

/-- The scan of LookupByModel: first backend id that resolves in the
backend table and is healthy. -/
def firstHealthy (backends : List (String × Backend)) : List String → Option Backend
  | [] => none
  | bid :: rest =>
    match lookupKey backends bid with
    | some b => if b.healthy then some b else firstHealthy backends rest
    | none => firstHealthy backends rest

/-- LookupByModel: absent or empty sequence is a miss; else first
existing healthy backend in insertion order; else the entry for the
first id (a miss when that id is not in the table). -/
def LookupByModel (r : BackendRegistry) (modelID : String) : Option Backend :=
  match lookupKey r.models modelID with
  | none => none
  | some [] => none
  | some (first :: rest) =>
    match firstHealthy r.backends (first :: rest) with
    | some b => some b
    | none => lookupKey r.backends first

/-- LookupResult: the chosen backend plus the session_broken bit. -/
structure LookupResult where
  backend : Backend
  sessionBroken : Bool
deriving DecidableEq

/-! Go sorts with sort.Slice and the comparator ID() < ID(), i.e. by the
byte-wise order on id strings.  UTF-8 byte-wise order coincides with
code-point lexicographic order, modelled here on the char lists.
sort.Slice is not a stable sort, but every list sorted here has pairwise
distinct elements whenever the ids are distinct, so insertion sort
computes the same list. -/

/-- Byte-wise (code-point) lexicographic string comparison, as Go's
operator <= on strings restricted to the ids being compared. -/
def charListLE : List Char → List Char → Bool
  | [], _ => true
  | _ :: _, [] => false
  | a :: as, b :: bs =>
    if a.toNat < b.toNat then true
    else if b.toNat < a.toNat then false
    else charListLE as bs

def backendLE (a b : Backend) : Prop := charListLE a.id.data b.id.data = true

instance : DecidableRel backendLE := fun a b =>
  inferInstanceAs (Decidable (charListLE a.id.data b.id.data = true))

/-- sort.Slice(l, ids ascending). -/
def sortByID (l : List Backend) : List Backend := l.insertionSort backendLE

/-- LookupByModelWithSession (registry.go).  Empty session falls back to
the first-healthy scan; otherwise both the existing backends for the
model and their healthy subset are collected, both slices are sorted by
id in place, and the FNV-1a hash of the session picks the preferred
backend from the full slice, falling back to the healthy slice (session
broken) and finally to the unhealthy preferred backend.  List.getD is
used for slice indexing; the index is always less than the length (it is
a mod by the length), so the default is never taken. -/
def LookupByModelWithSession (r : BackendRegistry) (modelID sessionID : String) : Option LookupResult :=
  match lookupKey r.models modelID with
  | none => none
  | some [] => none
  | some (first :: rest) =>
    if sessionID = "" then
      match firstHealthy r.backends (first :: rest) with
      | some b => some { backend := b, sessionBroken := false }
      | none =>
        match lookupKey r.backends first with
        | some b => some { backend := b, sessionBroken := false }
        | none => none
    else
      let allBackends := (first :: rest).filterMap (lookupKey r.backends)
      let healthyBackends := allBackends.filter (fun b => b.healthy)
      let allSorted := sortByID allBackends
      let healthySorted := sortByID healthyBackends
      match allSorted with
      | [] => none
      | a :: _ =>
        let preferred := allSorted.getD (hashSessionToIndex sessionID allSorted.length) a
        if preferred.healthy then some { backend := preferred, sessionBroken := false }
        else
          match healthySorted with
          | [] => some { backend := preferred, sessionBroken := true }
          | hh :: _ =>
            some { backend := healthySorted.getD (hashSessionToIndex sessionID healthySorted.length) hh,
                   sessionBroken := true }

/-! ## Spec-side lookup descriptions (for the refinement claims) -/

/-- The first-healthy lookup as the spec words it: scan the ids mapped to
the model in insertion order, return the first healthy backend; if none
is healthy return the first backend regardless of health; absent or
empty sequence is a miss. -/
def LookupByModelSpec (r : BackendRegistry) (modelID : String) : Option Backend :=
  match lookupKey r.models modelID with
  | none => none
  | some backendIDs =>
    let resolved := backendIDs.filterMap (lookupKey r.backends)
    match resolved.find? (fun b => b.healthy) with
    | some b => some b
    | none => resolved.head?

/-- The session-affinity lookup as the claim words it: all = existing
backends for the model sorted ascending by id, healthy = its healthy
subset in the same order; empty all is a miss; preferred =
all[fnv1a mod length]; healthy preferred wins, else fall back to
healthy[fnv1a mod length] (session broken), else the unhealthy
preferred (session broken). -/
def LookupByModelWithSessionSpec (r : BackendRegistry) (modelID sessionID : String) : Option LookupResult :=
  let all := sortByID (((lookupKey r.models modelID).getD []).filterMap (lookupKey r.backends))
  let healthy := all.filter (fun b => b.healthy)
  match all with
  | [] => none
  | a :: _ =>
    let preferred := all.getD (hashSessionToIndex sessionID all.length) a
    if preferred.healthy then some { backend := preferred, sessionBroken := false }
    else
      match healthy with
      | [] => some { backend := preferred, sessionBroken := true }
      | hh :: _ =>
        some { backend := healthy.getD (hashSessionToIndex sessionID healthy.length) hh,
               sessionBroken := true }

/-! ## Stream events and the SSE producer (backends/generic.go) -/

/-- StreamEvent: raw SSE data, the error (nil modelled as none), and the
final-event flag. -/
structure StreamEvent where
  data : String
  err : Option String
  done : Bool
deriving DecidableEq

/-- How the upstream body read ends once the buffered lines run out:
clean EOF, or a non-EOF read error. -/
inductive ReadTermination where
  | eof
  | readErr (msg : String)
deriving DecidableEq

/-- ASCII/Latin-1 fragment of Go's unicode.IsSpace: space, tab, LF, VT,
FF, CR, NEL (U+0085) and NBSP (U+00A0).  The claims only involve ASCII
lines, where this coincides with unicode.IsSpace exactly. -/
def isSpaceChar (c : Char) : Bool :=
  c.toNat == 32 || (9 ≤ c.toNat && c.toNat ≤ 13) || c.toNat == 133 || c.toNat == 160

/-- strings.TrimSpace on the char list of a line. -/
def trimSpace (s : List Char) : List Char :=
  ((s.dropWhile isSpaceChar).reverse.dropWhile isSpaceChar).reverse

/-- strings.HasPrefix on char lists. -/
def hasPrefixChars : List Char → List Char → Bool
  | _, [] => true
  | [], _ :: _ => false
  | c :: cs, p :: ps => c == p && hasPrefixChars cs ps

/-- The producer goroutine body of streamRequest (backends/generic.go,
lines 189-228), for runs in which the request context is not cancelled:
the upstream body is the list of lines ReadString('\n') yields followed
by its final error (EOF or a read error; Go's ReadString discards an
unterminated partial line by returning it together with the error, and
the code ignores that partial data).  Each line is trimmed; empty lines
and lines without the data prefix are skipped; the [DONE] payload emits
the final event and stops; other payloads emit plain data events.  The
returned list is the full content of the channel, which is closed (by
the deferred close) right after the last listed event. -/
def streamProducer (lines : List String) (term : ReadTermination) : List StreamEvent :=
  match lines with
  | [] =>
    match term with
    | ReadTermination.eof => [{ data := "", err := none, done := true }]
    | ReadTermination.readErr e => [{ data := "", err := some e, done := true }]
  | line :: rest =>
    let t := trimSpace line.data
    if t.isEmpty || !hasPrefixChars t ("data: ".data) then streamProducer rest term
    else
      let d := String.mk (t.drop ("data: ".data.length))
      if d == "[DONE]" then [{ data := d, err := none, done := true }]
      else { data := d, err := none, done := false } :: streamProducer rest term

/-- streamRequest (backends/generic.go, lines 166-231), with the
transport outcome given as the initial response status plus the body
lines and their terminating read result.  A non-200 status is returned
synchronously as an error and no channel is opened; otherwise the
channel carries exactly the producer's events. -/
def streamRequest (status : Nat) (lines : List String) (term : ReadTermination) : Except String (List StreamEvent) :=
  if status ≠ 200 then Except.error "stream request failed"
  else Except.ok (streamProducer lines term)

/-- The payloads of the data lines of an upstream body, in order: the
spec-side description of which lines produce events. -/
def dataPayloads (lines : List String) : List String :=
  lines.filterMap (fun line =>
    let t := trimSpace line.data
    if t.isEmpty || !hasPrefixChars t ("data: ".data) then none
    else some (String.mk (t.drop ("data: ".data.length))))

/-! ## The two client-side relay loops -/

/-- One write the relay makes to the client: an SSE data frame
(sse.WriteData) or the terminator frame `data: [DONE]` (sse.WriteDone). -/
inductive SSEWrite where
  | data (payload : String)
  | done
deriving DecidableEq

/-- The event loop of the generic handleStream (router version in
part 006, lines 312-331), for runs in which every client write succeeds:
returns the writes made plus the streamEnded flag.  An error event stops
the loop without writing; a done event writes the terminator and stops
with streamEnded set; non-empty data is forwarded. -/
def relayLoop : List StreamEvent → List SSEWrite × Bool
  | [] => ([], false)
  | e :: rest =>
    if e.err.isSome then ([], false)
    else if e.done then ([SSEWrite.done], true)
    else if e.data != "" then
      let (ws, ended) := relayLoop rest
      (SSEWrite.data e.data :: ws, ended)
    else relayLoop rest

/-- handleStream (part 006, lines 296-336) after the channel is open:
run the loop, then write the terminator if the loop did not already. -/
def handleStream (events : List StreamEvent) : List SSEWrite :=
  let (ws, ended) := relayLoop events
  if ended then ws else ws ++ [SSEWrite.done]

/-- The event loop of the older handleChatCompletionsStream (router.go,
lines 270-287): the terminator is written only for a done event whose
data is the literal [DONE]; there is no post-loop terminator. -/
def handleChatCompletionsStream : List StreamEvent → List SSEWrite
  | [] => []
  | e :: rest =>
    if e.err.isSome then []
    else if e.done && e.data == "[DONE]" then [SSEWrite.done]
    else if e.data != "" then SSEWrite.data e.data :: handleChatCompletionsStream rest
    else handleChatCompletionsStream rest

/-- Number of terminator frames among the writes. -/
def countDone (ws : List SSEWrite) : Nat :=
  ws.countP (fun w => w == SSEWrite.done)

/-! ## GenericBackend (backends/generic.go) -/

inductive BackendType where
  | vllm
  | ollama
  | llamacpp
  | lmstudio
  | generic
deriving DecidableEq

/-- The parsed base URL; its structure is irrelevant to the claims, so
only the raw text is kept. -/
structure ParsedURL where
  raw : String
deriving DecidableEq

/-- The injected transport; only its identity matters to the claims. -/
structure HTTPClient where
  timeoutSeconds : Nat
deriving DecidableEq

structure GenericBackend where
  id : String
  backendType : BackendType
  baseURL : ParsedURL
  httpClient : HTTPClient
  healthy : Bool
  models : List Model
deriving DecidableEq

/-- The two GenericBackendOption constructors. -/
inductive GenericBackendOption where
  | withHTTPClient (c : HTTPClient)
  | withBackendType (t : BackendType)
deriving DecidableEq

def applyOption (b : GenericBackend) : GenericBackendOption → GenericBackend
  | GenericBackendOption.withHTTPClient c => { b with httpClient := c }
  | GenericBackendOption.withBackendType t => { b with backendType := t }

/-- NewGenericBackend: url.Parse's outcome is passed in; on success the
handle is built with type generic, a 5-minute default client, the
healthy bit stored true, and the options applied in order. -/
def NewGenericBackend (id : String) (parsed : Except String ParsedURL)
    (opts : List GenericBackendOption) : Except String GenericBackend :=
  match parsed with
  | Except.error e => Except.error ("invalid base URL: " ++ e)
  | Except.ok u =>
    let b : GenericBackend :=
      { id := id, backendType := BackendType.generic, baseURL := u,
        httpClient := { timeoutSeconds := 300 }, healthy := true, models := [] }
    Except.ok (opts.foldl applyOption b)

/-- IsHealthy: atomic load of the healthy bit. -/
def IsHealthy (b : GenericBackend) : Bool := b.healthy

/-! ## Wire request envelopes (package types, in the options.go
concatenation) and the streaming calls

Go types are mapped as: string to String, bool to Bool, int and int64 to
Int, a pointer to an Option, a slice to a List, map[string]int to an
association list.  A float64 is only ever carried, never computed on, by
the code under verification, so it is kept as its raw IEEE-754 bit
pattern; an `any` field is an opaque JSON value, likewise only
carried. -/

/-- A Go float64 field, carried as its raw bit pattern. -/
structure GoFloat64 where
  bits : Nat
deriving DecidableEq

/-- A Go `any` field: an opaque JSON value. -/
structure GoAny where
  raw : String
deriving DecidableEq

/-- types.ToolCallFunction. -/
structure ToolCallFunction where
  name : String
  arguments : String
deriving DecidableEq

/-- types.ToolCall. -/
structure ToolCall where
  id : String
  type : String
  function : ToolCallFunction
deriving DecidableEq

/-- types.ChatMessage (Content is a Go any: string or content parts). -/
structure ChatMessage where
  role : String
  content : GoAny
  name : String
  toolCalls : List ToolCall
  toolCallID : String
deriving DecidableEq

/-- types.StreamOptions. -/
structure StreamOptions where
  includeUsage : Bool
deriving DecidableEq

/-- types.ToolFunction. -/
structure ToolFunction where
  name : String
  description : String
  parameters : GoAny
deriving DecidableEq

/-- types.Tool. -/
structure Tool where
  type : String
  function : ToolFunction
deriving DecidableEq

/-- types.ResponseFormat. -/
structure ResponseFormat where
  type : String
  jsonSchema : GoAny
deriving DecidableEq

/-- types.ChatCompletionRequest, field for field. -/
structure ChatCompletionRequest where
  model : String
  messages : List ChatMessage
  temperature : Option GoFloat64
  topP : Option GoFloat64
  n : Option Int
  stream : Bool
  streamOptions : Option StreamOptions
  stop : List String
  maxTokens : Option Int
  presencePenalty : Option GoFloat64
  frequencyPenalty : Option GoFloat64
  logitBias : List (String × Int)
  user : String
  seed : Option Int
  tools : List Tool
  toolChoice : GoAny
  responseFormat : Option ResponseFormat
deriving DecidableEq

/-- types.CompletionRequest, field for field (Prompt is a Go any: string
or string slice). -/
structure CompletionRequest where
  model : String
  prompt : GoAny
  maxTokens : Option Int
  temperature : Option GoFloat64
  topP : Option GoFloat64
  n : Option Int
  stream : Bool
  stop : List String
  presencePenalty : Option GoFloat64
  frequencyPenalty : Option GoFloat64
  logitBias : List (String × Int)
  user : String
  seed : Option Int
  echo : Bool
  bestOf : Option Int
  logprobs : Option Int
deriving DecidableEq

/-- ChatCompletionStream (backends/generic.go, lines 233-240): sets the
Stream field of the caller's request struct to true, marshals, and
delegates to streamRequest.  The first component is the caller's struct
after the call (the mutation happens before either failure point); the
second is the call's result, with the marshal outcome an explicit
input. -/
def ChatCompletionStream (req : ChatCompletionRequest) (marshalOk : Bool)
    (status : Nat) (lines : List String) (term : ReadTermination) :
    ChatCompletionRequest × Except String (List StreamEvent) :=
  let req' := { req with stream := true }
  if marshalOk then (req', streamRequest status lines term)
  else (req', Except.error "marshal error")

/-- CompletionStream (backends/generic.go, lines 275-282): same shape as
ChatCompletionStream. -/
def CompletionStream (req : CompletionRequest) (marshalOk : Bool)
    (status : Nat) (lines : List String) (term : ReadTermination) :
    CompletionRequest × Except String (List StreamEvent) :=
  let req' := { req with stream := true }
  if marshalOk then (req', streamRequest status lines term)
  else (req', Except.error "marshal error")

/-! ## Association-list lemmas -/

theorem lookupKey_mem {α : Type} {m : List (String × α)} {k : String} {v : α}
    (h : lookupKey m k = some v) : (k, v) ∈ m := by
  induction m with
  | nil => simp [lookupKey] at h
  | cons e rest ih =>
    obtain ⟨k', v'⟩ := e
    by_cases hk : k' = k
    · subst hk
      have h' : v' = v := by simpa [lookupKey] using h
      subst h'
      exact List.mem_cons_self _ _
    · simp only [lookupKey, if_neg hk] at h
      exact List.mem_cons_of_mem _ (ih h)

theorem mem_insertKey {α : Type} {m : List (String × α)} {k : String} {v : α} {e : String × α}
    (h : e ∈ insertKey m k v) : e = (k, v) ∨ e ∈ m := by
  induction m with
  | nil => simpa [insertKey] using h
  | cons a rest ih =>
    obtain ⟨k', v'⟩ := a
    by_cases hk : k' = k
    · simp only [insertKey, if_pos hk] at h
      rcases List.mem_cons.mp h with h | h
      · exact Or.inl h
      · exact Or.inr (List.mem_cons_of_mem _ h)
    · simp only [insertKey, if_neg hk] at h
      rcases List.mem_cons.mp h with h | h
      · exact Or.inr (by simp [h])
      · rcases ih h with h' | h'
        · exact Or.inl h'
        · exact Or.inr (List.mem_cons_of_mem _ h')

theorem lookupKey_insertKey {α : Type} (m : List (String × α)) (k : String) (v : α) (k' : String) :
    lookupKey (insertKey m k v) k' = if k = k' then some v else lookupKey m k' := by
  induction m with
  | nil => simp [insertKey, lookupKey]
  | cons a rest ih =>
    obtain ⟨a₁, a₂⟩ := a
    by_cases hk : a₁ = k
    · subst hk
      by_cases hk' : a₁ = k'
      · subst hk'
        simp [insertKey, lookupKey]
      · simp [insertKey, lookupKey, hk']
    · by_cases hk' : a₁ = k'
      · subst hk'
        have : ¬ k = a₁ := fun h => hk h.symm
        simp [insertKey, lookupKey, hk, this]
      · simp [insertKey, lookupKey, hk, hk', ih]

theorem lookupKey_eraseKey {α : Type} (m : List (String × α)) (k k' : String) :
    lookupKey (eraseKey m k) k' = if k = k' then none else lookupKey m k' := by
  induction m with
  | nil => simp [eraseKey, lookupKey]
  | cons a rest ih =>
    obtain ⟨a₁, a₂⟩ := a
    by_cases hk : a₁ = k
    · subst hk
      by_cases hk' : a₁ = k'
      · subst hk'
        simp [eraseKey, lookupKey, ih]
      · simp [eraseKey, lookupKey, hk', ih]
    · by_cases hk' : a₁ = k'
      · subst hk'
        have : ¬ k = a₁ := fun h => hk h.symm
        simp [eraseKey, lookupKey, hk, this]
      · simp [eraseKey, lookupKey, hk, hk', ih]

theorem mem_pruneBackendID {entry' : String × List String} {ms : List (String × List String)} {id : String}
    (h : entry' ∈ pruneBackendID ms id) :
    ∃ entry ∈ ms, entry'.1 = entry.1 ∧ entry'.2 = entry.2.filter (fun bid => bid != id) := by
  simp only [pruneBackendID, List.mem_filterMap] at h
  obtain ⟨e, he, hf⟩ := h
  by_cases hempty : (e.2.filter (fun bid => bid != id)).isEmpty = true
  · simp [hempty] at hf
  · rw [if_neg hempty] at hf
    have heq : entry' = (e.1, e.2.filter (fun bid => bid != id)) := (Option.some.inj hf).symm
    exact ⟨e, he, by rw [heq], by rw [heq]⟩

/-! ## Soundness preservation (claim C4) -/

theorem addModelMapping_backends (r : BackendRegistry) (mid bid : String) :
    (addModelMapping r mid bid).backends = r.backends := by
  unfold addModelMapping
  dsimp only
  split <;> rfl

theorem sound_addModelMapping {r : BackendRegistry} (hs : Sound r) {bid : String}
    (hb : (lookupKey r.backends bid).isSome = true) (mid : String) :
    Sound (addModelMapping r mid bid) := by
  intro entry hentry bid' hbid'
  rw [addModelMapping_backends]
  unfold addModelMapping at hentry
  dsimp only at hentry
  split at hentry
  · exact hs entry hentry bid' hbid'
  · rcases mem_insertKey hentry with heq | hmem
    · subst heq
      simp only at hbid'
      rcases List.mem_append.mp hbid' with hold | hnew
      · cases hlk : lookupKey r.models mid with
        | none => rw [hlk] at hold; simp at hold
        | some ids =>
          rw [hlk] at hold
          simp only [Option.getD_some] at hold
          exact hs (mid, ids) (lookupKey_mem hlk) bid' hold
      · have hbb : bid' = bid := by simpa using hnew
        subst hbb
        exact hb
    · exact hs entry hmem bid' hbid'

theorem foldl_addModelMapping_backends (models : List Model) (r : BackendRegistry) (bid : String) :
    (models.foldl (fun acc m => addModelMapping acc m.id bid) r).backends = r.backends := by
  induction models generalizing r with
  | nil => rfl
  | cons m rest ih =>
    simp only [List.foldl_cons]
    rw [ih, addModelMapping_backends]

theorem sound_foldl_addModelMapping (models : List Model) {r : BackendRegistry} (hs : Sound r)
    {bid : String} (hb : (lookupKey r.backends bid).isSome = true) :
    Sound (models.foldl (fun acc m => addModelMapping acc m.id bid) r) := by
  induction models generalizing r with
  | nil => exact hs
  | cons m rest ih =>
    simp only [List.foldl_cons]
    exact ih (sound_addModelMapping hs hb m.id) (by rw [addModelMapping_backends]; exact hb)

theorem sound_Register {r : BackendRegistry} (hs : Sound r) (b : Backend)
    (f : Except Unit (List Model)) : Sound (Register r b f) := by
  unfold Register
  dsimp only
  have hs' : Sound { r with backends := insertKey r.backends b.id b } := by
    intro entry he bid hbid
    have h := hs entry he bid hbid
    simp only
    rw [lookupKey_insertKey]
    split
    · rfl
    · exact h
  cases f with
  | error e => exact hs'
  | ok models =>
    refine sound_foldl_addModelMapping models hs' ?_
    simp only
    rw [lookupKey_insertKey, if_pos rfl]
    rfl

theorem sound_Unregister {r : BackendRegistry} (hs : Sound r) (id : String) :
    Sound (Unregister r id) := by
  intro entry' he' bid hbid
  obtain ⟨entry, hmem, h1, h2⟩ := mem_pruneBackendID he'
  rw [h2] at hbid
  have hin := List.mem_filter.mp hbid
  have hne : bid ≠ id := by simpa using hin.2
  have hk := hs entry hmem bid hin.1
  show (lookupKey (eraseKey r.backends id) bid).isSome = true
  rw [lookupKey_eraseKey]
  rw [if_neg (fun h => hne h.symm)]
  exact hk

theorem sound_RefreshModels {r : BackendRegistry} (hs : Sound r) (backendID : String)
    (f : Except Unit (List Model)) : Sound (RefreshModels r backendID f) := by
  unfold RefreshModels
  cases hlk : lookupKey r.backends backendID with
  | none => exact hs
  | some bknd =>
    dsimp only
    have hs' : Sound { r with models := pruneBackendID r.models backendID } := by
      intro entry' he' bid hbid
      obtain ⟨entry, hmem, h1, h2⟩ := mem_pruneBackendID he'
      rw [h2] at hbid
      have hin := List.mem_filter.mp hbid
      exact hs entry hmem bid hin.1
    cases f with
    | error e => exact hs'
    | ok models =>
      refine sound_foldl_addModelMapping models hs' ?_
      simp only [hlk]
      rfl

theorem sound_foldl_applyOp (ops : List RegistryOp) {r : BackendRegistry} (hs : Sound r) :
    Sound (ops.foldl applyOp r) := by
  induction ops generalizing r with
  | nil => exact hs
  | cons op rest ih =>
    simp only [List.foldl_cons]
    refine ih ?_
    cases op with
    | register b f => exact sound_Register hs b f
    | unregister id => exact sound_Unregister hs id
    | refreshModels id f => exact sound_RefreshModels hs id f

/-- Claim C4: after any finite sequence of Register, Unregister and
RefreshModels operations applied to the empty registry, every backend id
appearing in any model's sequence exists in the backend table. -/
theorem registry_soundness (ops : List RegistryOp) : Sound (applyOps ops) := by
  unfold applyOps
  refine sound_foldl_applyOp ops ?_
  intro entry he
  simp [NewBackendRegistry] at he

/-! ## First-healthy lookup vs the spec description (claim C5) -/

theorem firstHealthy_eq_find? (bk : List (String × Backend)) (ids : List String)
    (h : ∀ bid ∈ ids, (lookupKey bk bid).isSome = true) :
    firstHealthy bk ids = (ids.filterMap (lookupKey bk)).find? (fun b => b.healthy) := by
  induction ids with
  | nil => rfl
  | cons bid rest ih =>
    obtain ⟨b, hb⟩ := Option.isSome_iff_exists.mp (h bid (List.mem_cons_self _ _))
    have hrest : ∀ bid' ∈ rest, (lookupKey bk bid').isSome = true :=
      fun bid' hbid' => h bid' (List.mem_cons_of_mem _ hbid')
    simp only [firstHealthy, hb, List.filterMap_cons, List.find?]
    cases hh : b.healthy with
    | true => rfl
    | false => simpa [hh] using ih hrest

/-- Claim C5: on a sound registry state, LookupByModel scans the model's
backend ids in insertion order, returns the first healthy backend, falls
back to the first backend regardless of health, and misses exactly when
the model is absent or maps to an empty sequence. -/
theorem lookup_by_model_matches_spec (r : BackendRegistry) (m : String) (hs : Sound r) :
    LookupByModel r m = LookupByModelSpec r m := by
  unfold LookupByModel LookupByModelSpec
  cases hlk : lookupKey r.models m with
  | none => rfl
  | some ids =>
    have hmem := lookupKey_mem hlk
    have hall : ∀ bid ∈ ids, (lookupKey r.backends bid).isSome = true :=
      fun bid hbid => hs (m, ids) hmem bid hbid
    cases ids with
    | nil => rfl
    | cons first rest =>
      dsimp only
      rw [firstHealthy_eq_find? r.backends (first :: rest) hall]
      cases hf : ((first :: rest).filterMap (lookupKey r.backends)).find? (fun b => b.healthy) with
      | some b => rfl
      | none =>
        obtain ⟨b0, hb0⟩ := Option.isSome_iff_exists.mp (hall first (List.mem_cons_self _ _))
        simp [List.filterMap_cons, hb0]

/-- Witness for C5 on a concrete sound registry. -/
theorem lookup_by_model_matches_spec_witness :
    Sound { backends := [("a", { id := "a", healthy := false }), ("b", { id := "b", healthy := true })],
            models := [("m", ["a", "b"])] } ∧
    LookupByModel { backends := [("a", { id := "a", healthy := false }), ("b", { id := "b", healthy := true })],
                    models := [("m", ["a", "b"])] } "m" =
      LookupByModelSpec { backends := [("a", { id := "a", healthy := false }), ("b", { id := "b", healthy := true })],
                          models := [("m", ["a", "b"])] } "m" :=
  ⟨by decide, lookup_by_model_matches_spec _ "m" (by decide)⟩

/-! ## Empty-session lookup equals first-healthy lookup (claim C6) -/

/-- Claim C6: with the empty session id, LookupByModelWithSession returns
exactly the backend and hit/miss outcome of LookupByModel, with the
sessionBroken flag always false.  This holds for every registry state. -/
theorem empty_session_refines_lookup_by_model (r : BackendRegistry) (m : String) :
    LookupByModelWithSession r m "" =
      (LookupByModel r m).map (fun b => { backend := b, sessionBroken := false }) := by
  unfold LookupByModelWithSession LookupByModel
  cases lookupKey r.models m with
  | none => rfl
  | some ids =>
    cases ids with
    | nil => rfl
    | cons first rest =>
      dsimp only
      rw [if_pos rfl]
      cases firstHealthy r.backends (first :: rest) with
      | some b => rfl
      | none => cases lookupKey r.backends first <;> rfl

/-! ## Order facts about the id comparison (for claim C1) -/

theorem charListLE_total : ∀ x y : List Char, charListLE x y = true ∨ charListLE y x = true := by
  intro x
  induction x with
  | nil => intro y; left; rfl
  | cons a as ih =>
    intro y
    cases y with
    | nil => right; rfl
    | cons b bs =>
      by_cases h1 : a.toNat < b.toNat
      · left; simp only [charListLE]; rw [if_pos h1]
      · by_cases h2 : b.toNat < a.toNat
        · right; simp only [charListLE]; rw [if_pos h2]
        · rcases ih bs with h | h
          · left; simp only [charListLE]; rw [if_neg h1, if_neg h2]; exact h
          · right; simp only [charListLE]; rw [if_neg h2, if_neg h1]; exact h

theorem charListLE_trans :
    ∀ x y z : List Char, charListLE x y = true → charListLE y z = true → charListLE x z = true := by
  intro x
  induction x with
  | nil => intro y z _ _; rfl
  | cons a as ih =>
    intro y z hxy hyz
    cases y with
    | nil => simp [charListLE] at hxy
    | cons b bs =>
      cases z with
      | nil => simp [charListLE] at hyz
      | cons c cs =>
        simp only [charListLE] at hxy hyz ⊢
        by_cases h1 : a.toNat < b.toNat
        · by_cases h2 : b.toNat < c.toNat
          · rw [if_pos (by omega : a.toNat < c.toNat)]
          · rw [if_neg h2] at hyz
            by_cases h3 : c.toNat < b.toNat
            · rw [if_pos h3] at hyz; exact absurd hyz (by simp)
            · rw [if_pos (by omega : a.toNat < c.toNat)]
        · rw [if_neg h1] at hxy
          by_cases h1' : b.toNat < a.toNat
          · rw [if_pos h1'] at hxy; exact absurd hxy (by simp)
          · rw [if_neg h1'] at hxy
            by_cases h2 : b.toNat < c.toNat
            · rw [if_pos (by omega : a.toNat < c.toNat)]
            · rw [if_neg h2] at hyz
              by_cases h3 : c.toNat < b.toNat
              · rw [if_pos h3] at hyz; exact absurd hyz (by simp)
              · rw [if_neg h3] at hyz
                rw [if_neg (by omega : ¬ a.toNat < c.toNat),
                    if_neg (by omega : ¬ c.toNat < a.toNat)]
                exact ih bs cs hxy hyz

theorem char_eq_of_toNat_eq {a b : Char} (h : a.toNat = b.toNat) : a = b := by
  have hv : a.val = b.val := by
    apply UInt32.eq_of_toBitVec_eq
    apply BitVec.eq_of_toNat_eq
    exact h
  exact Char.eq_of_val_eq hv

theorem charListLE_antisymm :
    ∀ x y : List Char, charListLE x y = true → charListLE y x = true → x = y := by
  intro x
  induction x with
  | nil =>
    intro y hxy hyx
    cases y with
    | nil => rfl
    | cons b bs => simp [charListLE] at hyx
  | cons a as ih =>
    intro y hxy hyx
    cases y with
    | nil => simp [charListLE] at hxy
    | cons b bs =>
      simp only [charListLE] at hxy hyx
      by_cases h1 : a.toNat < b.toNat
      · rw [if_neg (by omega : ¬ b.toNat < a.toNat), if_pos h1] at hyx
        exact absurd hyx (by simp)
      · by_cases h2 : b.toNat < a.toNat
        · rw [if_neg h1, if_pos h2] at hxy
          exact absurd hxy (by simp)
        · rw [if_neg h1, if_neg h2] at hxy
          rw [if_neg h2, if_neg h1] at hyx
          have hab : a = b := char_eq_of_toNat_eq (by omega)
          rw [hab, ih bs hxy hyx]

theorem string_eq_of_data_eq {s t : String} (h : s.data = t.data) : s = t := by
  cases s
  cases t
  exact congrArg String.mk h

instance : IsTotal Backend backendLE := ⟨fun a b => charListLE_total a.id.data b.id.data⟩

instance : IsTrans Backend backendLE :=
  ⟨fun a b c h₁ h₂ => charListLE_trans a.id.data b.id.data c.id.data h₁ h₂⟩

/-- The strict version of the id order, used to show that a sorted list
with pairwise-distinct ids is unique among its permutations. -/
def backendLEStrict (a b : Backend) : Prop := backendLE a b ∧ a.id ≠ b.id

instance : IsAntisymm Backend backendLEStrict :=
  ⟨fun a b h₁ h₂ =>
    absurd (string_eq_of_data_eq (charListLE_antisymm a.id.data b.id.data h₁.1 h₂.1)) h₁.2⟩

theorem sortByID_perm (l : List Backend) : List.Perm (sortByID l) l :=
  List.perm_insertionSort backendLE l

theorem sortByID_sorted (l : List Backend) : (sortByID l).Pairwise backendLE :=
  List.sorted_insertionSort backendLE l

/-- Sorting then filtering equals filtering then sorting when the ids are
pairwise distinct: both sides are sorted-by-id permutations of the same
multiset, and distinct ids make that list unique. -/
theorem sortByID_filter_comm (l : List Backend) (p : Backend → Bool)
    (h : (l.map Backend.id).Nodup) :
    sortByID (l.filter p) = (sortByID l).filter p := by
  have hp1 : List.Perm (sortByID (l.filter p)) (l.filter p) := sortByID_perm _
  have hp2 : List.Perm ((sortByID l).filter p) (l.filter p) := (sortByID_perm l).filter p
  have hperm : List.Perm (sortByID (l.filter p)) ((sortByID l).filter p) := hp1.trans hp2.symm
  have hnf : ((l.filter p).map Backend.id).Nodup :=
    h.sublist ((l.filter_sublist (p := p)).map Backend.id)
  have hn1 : ((sortByID (l.filter p)).map Backend.id).Nodup :=
    (hp1.map Backend.id).nodup_iff.mpr hnf
  have hn2 : (((sortByID l).filter p).map Backend.id).Nodup :=
    (hp2.map Backend.id).nodup_iff.mpr hnf
  have hs1 : (sortByID (l.filter p)).Pairwise backendLEStrict := by
    have ha := sortByID_sorted (l.filter p)
    have hb : (sortByID (l.filter p)).Pairwise (fun x y => x.id ≠ y.id) :=
      List.pairwise_map.mp hn1
    exact (ha.and hb).imp (fun hab => hab)
  have hs2 : (((sortByID l).filter p)).Pairwise backendLEStrict := by
    have ha : ((sortByID l).filter p).Pairwise backendLE :=
      List.Pairwise.filter p (sortByID_sorted l)
    have hb : ((sortByID l).filter p).Pairwise (fun x y => x.id ≠ y.id) :=
      List.pairwise_map.mp hn2
    exact (ha.and hb).imp (fun hab => hab)
  exact List.eq_of_perm_of_sorted hperm hs1 hs2

/-- Claim C1: for a non-empty session id, and whenever the backends that
exist for the model carry pairwise-distinct ids (an invariant of every
reachable registry state), LookupByModelWithSession computes exactly the
claim's description: all = existing backends sorted ascending by id,
healthy = its healthy subset in the same order, preferred =
all[fnv1a_32(s) mod length], with the healthy-preferred / hashed-healthy
fallback / unhealthy-preferred cascade. -/
theorem session_lookup_matches_spec (r : BackendRegistry) (m s : String) (hs : s ≠ "")
    (hn : ((((lookupKey r.models m).getD []).filterMap (lookupKey r.backends)).map Backend.id).Nodup) :
    LookupByModelWithSession r m s = LookupByModelWithSessionSpec r m s := by
  unfold LookupByModelWithSession LookupByModelWithSessionSpec
  cases hlk : lookupKey r.models m with
  | none =>
    simp only [Option.getD_none, List.filterMap_nil]
    rfl
  | some ids =>
    cases ids with
    | nil =>
      simp only [Option.getD_some, List.filterMap_nil]
      rfl
    | cons first rest =>
      rw [hlk] at hn
      simp only [Option.getD_some] at hn ⊢
      rw [if_neg hs]
      rw [sortByID_filter_comm ((first :: rest).filterMap (lookupKey r.backends))
        (fun b => b.healthy) hn]

/-- Witness for C1 on a concrete registry of two healthy backends
registered in non-sorted order. -/
theorem session_lookup_matches_spec_witness :
    ("session-123" ≠ "" ∧
      ((((lookupKey ({ backends := [("b", { id := "b", healthy := true }), ("a", { id := "a", healthy := false })],
                       models := [("m", ["b", "a"])] } : BackendRegistry).models "m").getD []).filterMap
          (lookupKey ({ backends := [("b", { id := "b", healthy := true }), ("a", { id := "a", healthy := false })],
                        models := [("m", ["b", "a"])] } : BackendRegistry).backends)).map Backend.id).Nodup) ∧
    LookupByModelWithSession { backends := [("b", { id := "b", healthy := true }), ("a", { id := "a", healthy := false })],
                               models := [("m", ["b", "a"])] } "m" "session-123" =
      LookupByModelWithSessionSpec { backends := [("b", { id := "b", healthy := true }), ("a", { id := "a", healthy := false })],
                                     models := [("m", ["b", "a"])] } "m" "session-123" :=
  ⟨⟨by decide, by decide⟩,
    session_lookup_matches_spec _ "m" "session-123" (by decide) (by decide)⟩

/-! ## Register on id collisions (claim C3) -/

theorem exists_mem_insertKey_append (ms : List (String × List String)) (mid bid mid' bid' : String)
    (h : ∃ ids, (mid, ids) ∈ ms ∧ bid ∈ ids) :
    ∃ ids, (mid, ids) ∈ insertKey ms mid' ((lookupKey ms mid').getD [] ++ [bid']) ∧ bid ∈ ids := by
  induction ms with
  | nil =>
    obtain ⟨ids, hmem, _⟩ := h
    simp at hmem
  | cons e rest ih =>
    obtain ⟨k, w⟩ := e
    obtain ⟨ids, hmem, hin⟩ := h
    by_cases hk : k = mid'
    · subst hk
      simp only [lookupKey, if_pos rfl, Option.getD_some, insertKey]
      rcases List.mem_cons.mp hmem with heq | hmem'
      · have h1 : mid = k := congrArg Prod.fst heq
        have h2 : ids = w := congrArg Prod.snd heq
        subst h1
        refine ⟨w ++ [bid'], List.mem_cons_self _ _, ?_⟩
        exact List.mem_append_left _ (h2 ▸ hin)
      · exact ⟨ids, List.mem_cons_of_mem _ hmem', hin⟩
    · simp only [lookupKey, if_neg hk, insertKey]
      rcases List.mem_cons.mp hmem with heq | hmem'
      · exact ⟨ids, heq ▸ List.mem_cons_self _ _, hin⟩
      · obtain ⟨ids', hmem'', hin'⟩ := ih ⟨ids, hmem', hin⟩
        exact ⟨ids', List.mem_cons_of_mem _ hmem'', hin'⟩

theorem mappedTo_addModelMapping {r : BackendRegistry} {mid bid : String}
    (h : MappedTo r mid bid) (mid' bid' : String) :
    MappedTo (addModelMapping r mid' bid') mid bid := by
  unfold addModelMapping
  dsimp only
  split
  · exact h
  · exact exists_mem_insertKey_append r.models mid bid mid' bid' h

theorem mappedTo_foldl_addModelMapping (models : List Model) {r : BackendRegistry}
    {mid bid : String} (h : MappedTo r mid bid) (bid' : String) :
    MappedTo (models.foldl (fun acc m => addModelMapping acc m.id bid') r) mid bid := by
  induction models generalizing r with
  | nil => exact h
  | cons m rest ih =>
    simp only [List.foldl_cons]
    exact ih (mappedTo_addModelMapping h m.id bid')

/-- Counterexample to claim C3: register a backend with id b1 serving
model m1, then register a new handle with the same id b1 whose freshly
fetched model list is only m2.  The claim says the old mapping from m1
to b1 is pruned; the code keeps it (m1 is not among the new model
ids). -/
theorem register_stale_mapping_counterexample :
    MappedTo (Register (Register NewBackendRegistry { id := "b1", healthy := true }
        (Except.ok [{ id := "m1" }])) { id := "b1", healthy := true }
        (Except.ok [{ id := "m2" }])) "m1" "b1" ∧
    "m1" ∉ ([{ id := "m2" }] : List Model).map Model.id :=
  ⟨⟨["b1"], by decide, by decide⟩, by decide⟩

/-- Amended claim C3: Register on an id collision replaces the old
handle in the backend table, but does not prune the old handle's model
mappings first — every mapping present before the call survives it, so
stale model entries persist when the new handle serves fewer models. -/
theorem register_replaces_without_pruning (r : BackendRegistry) (b : Backend)
    (f : Except Unit (List Model)) (mid bid : String) (h : MappedTo r mid bid) :
    MappedTo (Register r b f) mid bid ∧
      lookupKey (Register r b f).backends b.id = some b := by
  constructor
  · unfold Register
    dsimp only
    cases f with
    | error e => exact h
    | ok ms =>
      have h' : MappedTo { backends := insertKey r.backends b.id b, models := r.models } mid bid := h
      exact mappedTo_foldl_addModelMapping ms h' b.id
  · unfold Register
    dsimp only
    cases f with
    | error e =>
      show lookupKey (insertKey r.backends b.id b) b.id = some b
      rw [lookupKey_insertKey, if_pos rfl]
    | ok ms =>
      rw [foldl_addModelMapping_backends]
      show lookupKey (insertKey r.backends b.id b) b.id = some b
      rw [lookupKey_insertKey, if_pos rfl]

/-- Witness for the amended C3, colliding id b1 with a new handle that
serves only m2 while m1 was mapped before. -/
theorem register_replaces_without_pruning_witness :
    MappedTo (Register NewBackendRegistry { id := "b1", healthy := true }
        (Except.ok [{ id := "m1" }])) "m1" "b1" ∧
    (MappedTo (Register (Register NewBackendRegistry { id := "b1", healthy := true }
          (Except.ok [{ id := "m1" }])) { id := "b1", healthy := false }
          (Except.ok [{ id := "m2" }])) "m1" "b1" ∧
      lookupKey (Register (Register NewBackendRegistry { id := "b1", healthy := true }
          (Except.ok [{ id := "m1" }])) { id := "b1", healthy := false }
          (Except.ok [{ id := "m2" }])).backends "b1" = some { id := "b1", healthy := false }) :=
  ⟨⟨["b1"], by decide, by decide⟩,
    register_replaces_without_pruning _ { id := "b1", healthy := false } _ "m1" "b1"
      ⟨["b1"], by decide, by decide⟩⟩

/-! ## Relay terminator counting (claim C2) -/

theorem countDone_relayLoop (events : List StreamEvent) :
    countDone (relayLoop events).1 = if (relayLoop events).2 then 1 else 0 := by
  induction events with
  | nil => rfl
  | cons e rest ih =>
    by_cases h1 : e.err.isSome
    · simp [relayLoop, h1, countDone]
    · by_cases h2 : e.done
      · simp [relayLoop, h1, h2, countDone]
      · by_cases h3 : e.data != ""
        · simp only [relayLoop, h1, h2, h3, Bool.false_eq_true, if_false, if_true,
            countDone, List.countP_cons]
          simpa [countDone] using ih
        · simp only [relayLoop, h1, h2, h3, Bool.false_eq_true, if_false]
          exact ih

/-- Claim C2 (the SSE-termination invariant, checked against both relay
implementations): the generic handleStream writes the terminator exactly
once for every upstream event sequence, but the older
handleChatCompletionsStream writes no terminator at all when the
upstream channel delivers the clean-EOF done event (empty data) — the
failing input of the claim. -/
theorem relay_terminator_exactly_once :
    (∀ events : List StreamEvent, countDone (handleStream events) = 1) ∧
    countDone (handleChatCompletionsStream [{ data := "", err := none, done := true }]) = 0 := by
  constructor
  · intro events
    have h := countDone_relayLoop events
    unfold handleStream
    cases hp : relayLoop events with
    | mk ws ended =>
      rw [hp] at h
      cases ended with
      | false =>
        have h0 : countDone ws = 0 := by simpa using h
        have hws : countDone (ws ++ [SSEWrite.done]) = 1 := by
          unfold countDone at h0 ⊢
          rw [List.countP_append, h0]
          decide
        simpa using hws
      | true => simpa using h
  · decide

/-! ## Stream producer event characterization (claim C7) -/

/-- Counterexample to claim C7's last clause: the upstream line
" data: x" does not begin with the prefix (Go strings.HasPrefix is
false on it), yet the producer emits a data event for it, because the
code trims whitespace before testing the prefix. -/
theorem producer_whitespace_line_counterexample :
    hasPrefixChars (" data: x").data ("data: ".data) = false ∧
    streamProducer [" data: x"] ReadTermination.eof =
      [{ data := "x", err := none, done := false },
       { data := "", err := none, done := true }] :=
  ⟨by decide, by decide⟩

theorem dataPayloads_cons (line : String) (rest : List String) :
    dataPayloads (line :: rest) =
      if ((trimSpace line.data).isEmpty || !hasPrefixChars (trimSpace line.data) ("data: ".data)) = true
      then dataPayloads rest
      else String.mk ((trimSpace line.data).drop ("data: ".data.length)) :: dataPayloads rest := by
  by_cases hc : ((trimSpace line.data).isEmpty || !hasPrefixChars (trimSpace line.data) ("data: ".data)) = true
  · simp only [dataPayloads, List.filterMap_cons, if_pos hc]
  · simp only [dataPayloads, List.filterMap_cons, if_neg hc]

/-- Amended claim C7: the events channel carries, in order, one data
event per data-prefixed line (after whitespace trimming) before the
first [DONE] payload, followed by exactly one terminal event determined
by the termination cause: the [DONE] payload if one occurred, else a
clean done event on EOF, else an error event carrying the non-EOF read
error; lines that are empty or lack the data prefix after trimming
produce no event, and the channel closes right after the terminal
event. -/
theorem producer_events_characterization (lines : List String) (term : ReadTermination) :
    streamProducer lines term =
      ((dataPayloads lines).takeWhile (fun d => d != "[DONE]")).map
        (fun d => { data := d, err := none, done := false }) ++
      [if (dataPayloads lines).contains "[DONE]" then
          { data := "[DONE]", err := none, done := true }
        else
          match term with
          | ReadTermination.eof => { data := "", err := none, done := true }
          | ReadTermination.readErr e => { data := "", err := some e, done := true }] := by
  induction lines with
  | nil => cases term <;> rfl
  | cons line rest ih =>
    by_cases hc : ((trimSpace line.data).isEmpty || !hasPrefixChars (trimSpace line.data) ("data: ".data)) = true
    · rw [show streamProducer (line :: rest) term = streamProducer rest term from by
        simp only [streamProducer, if_pos hc]]
      rw [dataPayloads_cons, if_pos hc]
      exact ih
    · by_cases hd : String.mk ((trimSpace line.data).drop ("data: ".data.length)) = "[DONE]"
      · have hb : (String.mk ((trimSpace line.data).drop ("data: ".data.length)) == "[DONE]") = true :=
          beq_iff_eq.mpr hd
        rw [show streamProducer (line :: rest) term =
            [{ data := String.mk ((trimSpace line.data).drop ("data: ".data.length)),
               err := none, done := true }] from by simp only [streamProducer, if_neg hc, if_pos hb]]
        rw [dataPayloads_cons, if_neg hc, hd]
        rw [List.takeWhile_cons]
        rw [if_neg (by decide : ¬ (("[DONE]" : String) != "[DONE]") = true)]
        rw [List.contains_cons]
        simp
      · have hb : (String.mk ((trimSpace line.data).drop ("data: ".data.length)) == "[DONE]") = false :=
          beq_eq_false_iff_ne.mpr hd
        have hbne : ¬ (String.mk ((trimSpace line.data).drop ("data: ".data.length)) == "[DONE]") = true := by
          rw [hb]; simp
        rw [show streamProducer (line :: rest) term =
            { data := String.mk ((trimSpace line.data).drop ("data: ".data.length)),
              err := none, done := false } :: streamProducer rest term from by
          simp only [streamProducer, if_neg hc, if_neg hbne]]
        rw [dataPayloads_cons, if_neg hc]
        rw [List.takeWhile_cons]
        rw [if_pos (by simp only [bne, hb, Bool.not_false] :
          ((String.mk ((trimSpace line.data).drop ("data: ".data.length)) != "[DONE]")) = true)]
        rw [List.contains_cons]
        rw [show (("[DONE]" : String) == String.mk ((trimSpace line.data).drop ("data: ".data.length))) = false from
          beq_eq_false_iff_ne.mpr (fun hx => hd hx.symm)]
        simp only [Bool.false_or, List.map_cons, List.cons_append]
        rw [ih]

/-! ## Synchronous stream-open errors (claim C8) -/

/-- Counterexample to claim C8: the status 201 is a 2xx status, yet
streamRequest returns a synchronous error for it, because the code
compares against exactly 200 (http.StatusOK). -/
theorem stream_status_2xx_counterexample :
    (200 ≤ 201 ∧ 201 < 300) ∧
    streamRequest 201 [] ReadTermination.eof = Except.error "stream request failed" :=
  ⟨by decide, rfl⟩

/-- Amended claim C8: the call that creates the stream returns an error
synchronously (and opens no channel) exactly when the initial response
status differs from 200; a 200 response opens the channel carrying the
producer's events. -/
theorem stream_request_error_iff_not_200 (status : Nat) (lines : List String)
    (term : ReadTermination) :
    ((∃ msg, streamRequest status lines term = Except.error msg) ↔ status ≠ 200) ∧
    (streamRequest status lines term = Except.ok (streamProducer lines term) ↔ status = 200) := by
  unfold streamRequest
  by_cases h : status = 200
  · simp [h]
  · simp [h]

/-! ## Freshly constructed backends are healthy (claim C9) -/

theorem foldl_applyOption_healthy (opts : List GenericBackendOption) (b : GenericBackend) :
    (opts.foldl applyOption b).healthy = b.healthy := by
  induction opts generalizing b with
  | nil => rfl
  | cons o rest ih =>
    simp only [List.foldl_cons]
    rw [ih]
    cases o <;> rfl

/-- Claim C9: whenever the base URL parses, the backend NewGenericBackend
returns reports IsHealthy() = true immediately, before any health check,
whatever options were supplied. -/
theorem new_backend_initially_healthy (id : String) (u : ParsedURL)
    (opts : List GenericBackendOption) (bknd : GenericBackend)
    (h : NewGenericBackend id (Except.ok u) opts = Except.ok bknd) :
    IsHealthy bknd = true := by
  unfold NewGenericBackend at h
  dsimp only at h
  have hb := Except.ok.inj h
  unfold IsHealthy
  rw [← hb, foldl_applyOption_healthy]

/-- Witness for C9 at a concrete id, URL and option list. -/
theorem new_backend_initially_healthy_witness :
    NewGenericBackend "b0" (Except.ok { raw := "http://localhost:8080" })
        [GenericBackendOption.withBackendType BackendType.vllm] =
      Except.ok { id := "b0", backendType := BackendType.vllm,
                  baseURL := { raw := "http://localhost:8080" },
                  httpClient := { timeoutSeconds := 300 }, healthy := true, models := [] } ∧
    IsHealthy { id := "b0", backendType := BackendType.vllm,
                baseURL := { raw := "http://localhost:8080" },
                httpClient := { timeoutSeconds := 300 }, healthy := true, models := [] } = true :=
  ⟨rfl, new_backend_initially_healthy "b0" { raw := "http://localhost:8080" }
    [GenericBackendOption.withBackendType BackendType.vllm] _ rfl⟩

/-! ## The streaming calls mutate the caller's request (claim C10) -/

/-- Claim C10: ChatCompletionStream and CompletionStream set the Stream
field of the caller-supplied request struct to true before forwarding,
in every outcome (success, marshal failure, synchronous upstream error),
and leave every other field unchanged. -/
theorem stream_call_mutates_stream_flag (creq : ChatCompletionRequest)
    (dreq : CompletionRequest) (marshalOk : Bool) (status : Nat)
    (lines : List String) (term : ReadTermination) :
    (ChatCompletionStream creq marshalOk status lines term).1 = { creq with stream := true } ∧
    (CompletionStream dreq marshalOk status lines term).1 = { dreq with stream := true } := by
  constructor <;> (cases marshalOk <;> rfl)

end Oairouter
